import Mathlib

set_option maxRecDepth 4000

/-!
Shallow embedding of the SNVI tutorial notebook
(`tutorials/17_vi_posteriors.ipynb`) and of the components its round loop
invokes: the Simulation Executor (`simulate_for_sbi`), the Sequential
Estimator Trainer (`SNLE` with `append_simulations`/`train`), and the
Variational Posterior Builder (`VIPosterior`).  The notebook's round loop is
embedded from the source; the library components it calls live outside the
repository sources and are modelled from the spec, each marked as such in
its doc comment.
-/

namespace SnviSpec

/-! ### Simulation Executor -/

/-- Modelled from the spec: the body of `simulate_for_sbi` (Simulation
Executor), whose implementation is absent from the repository sources.  Runs
the simulator on each drawn parameter in order; a simulator raise is
modelled as `none`, and any raise aborts the whole batch (no partial batch
is produced). -/
def simBatch {Θ X : Type} (simulator : Θ → Option X) : List Θ → Option (List (Θ × X))
  | [] => some []
  | θ :: rest =>
    match simulator θ, simBatch simulator rest with
    | some x, some tail => some ((θ, x) :: tail)
    | _, _ => none

/-- Modelled from the spec: `simulate_for_sbi(simulator, proposal, n)`
(Simulation Executor `run`), absent from the repository sources.  The i.i.d.
draws from the proposal are modelled as a stream `draw : Nat → Θ` giving the
i-th independent draw; the executor pairs the first `n` draws with the
simulator's outputs. -/
def runExecutor {Θ X : Type} (simulator : Θ → Option X) (draw : Nat → Θ) (n : Nat) :
    Option (List (Θ × X)) :=
  simBatch simulator ((List.range n).map draw)

/-! ### Sequential Estimator Trainer -/

/-- The Sequential Estimator Trainer (`SNLE` instance): it owns the
cumulative `SimulationBatch` of (theta, x) pairs accumulated across rounds. -/
structure Trainer (Θ X : Type) where
  data : List (Θ × X)

/-- Modelled from the spec: `inference.append_simulations(theta, x)`, absent
from the repository sources.  Concatenates the new batch onto the cumulative
training set, order-preserving and without deduplication. -/
def Trainer.append_simulations {Θ X : Type} (t : Trainer Θ X) (batch : List (Θ × X)) :
    Trainer Θ X :=
  ⟨t.data ++ batch⟩

/-- Modelled from the spec: `.train()`, absent from the repository sources.
Training fits the estimator on the cumulative set deterministically given
the random seed (the notebook pins `torch.manual_seed(0)`); it returns the
fitted estimator and leaves the cumulative set unchanged.  The fitting
procedure itself is abstracted as the function `fit`. -/
def Trainer.train {Θ X E : Type} (fit : List (Θ × X) → Nat → E) (t : Trainer Θ X)
    (seed : Nat) : E × Trainer Θ X :=
  (fit t.data seed, t)

/-! ### Convergence policy of `train()` -/

/-- Modelled from the spec: the epoch with the best (lowest) validation loss
among epochs `0..e`, ties resolved to the earliest such epoch.  `loss` is
the per-epoch validation loss tracked by the trainer. -/
def bestEpoch (loss : Nat → Int) : Nat → Nat
  | 0 => 0
  | e + 1 => if loss (e + 1) < loss (bestEpoch loss e) then e + 1 else bestEpoch loss e

/-- Modelled from the spec: the stopping test of the convergence policy —
at epoch `e`, the validation loss has failed to improve for at least
`patience` epochs. -/
def noImprovement (loss : Nat → Int) (patience e : Nat) : Bool :=
  decide (patience ≤ e - bestEpoch loss e)

/-- Modelled from the spec: the epoch at which `train()` stops — the first
epoch at which the validation loss has failed to improve for the patience
window, or the epoch budget `maxEpochs` if no such epoch occurs. -/
def stopEpoch (loss : Nat → Int) (patience maxEpochs : Nat) : Nat :=
  match (List.range (maxEpochs + 1)).find? (fun e => noImprovement loss patience e) with
  | some e => e
  | none => maxEpochs

/-- Modelled from the spec: the estimator returned by `train()` — the
per-epoch snapshot `est` taken at the best validation-loss epoch among the
epochs actually run. -/
def trainResult {E : Type} (est : Nat → E) (loss : Nat → Int) (patience maxEpochs : Nat) : E :=
  est (bestEpoch loss (stopEpoch loss patience maxEpochs))

/-! ### Variational Posterior Builder -/

/-- The state machine of a `VIPosterior`: Unfit, Fitting, Fitted. -/
inductive VIState where
  | unfit
  | fitting
  | fitted
  deriving DecidableEq

/-- Errors the Variational Posterior Builder can raise. -/
inductive VIError where
  | unfittedPosteriorError
  deriving DecidableEq

/-- A `VIPosterior`: its state-machine state and its variational sampler.
The fitted variational density conditioned on an observation `x` is
modelled as a draw stream `draw x : Nat → Θ` over parameter space. -/
structure VIPosterior (Θ X : Type) where
  state : VIState
  draw : X → Nat → Θ

/-- Modelled from the spec: the `VIPosterior(potential_fn, prior, "maf",
theta_transform, vi_method="fKL")` constructor, absent from the repository
sources.  A freshly constructed posterior starts in the Unfit state. -/
def mkVIPosterior {Θ X : Type} (draw : X → Nat → Θ) : VIPosterior Θ X :=
  ⟨VIState.unfit, draw⟩

/-- Modelled from the spec: `VIPosterior.train()` (the `fit` step), absent
from the repository sources.  It runs the variational optimization to
completion (convergence or budget exhausted), installing the optimized
variational sampler and ending in the Fitted state. -/
def VIPosterior.train {Θ X : Type} (_p : VIPosterior Θ X) (optimized : X → Nat → Θ) :
    VIPosterior Θ X :=
  ⟨VIState.fitted, optimized⟩

/-- Modelled from the spec: `posterior.sample((n,), x=x_o)`, absent from the
repository sources.  In the Fitted state it returns `n` draws from the
fitted variational density conditioned on `x`, together with the posterior
itself, whose state and parameters it leaves unchanged; in any other state
it raises `UnfittedPosteriorError`. -/
def VIPosterior.sample {Θ X : Type} (p : VIPosterior Θ X) (n : Nat) (x : X) :
    Except VIError (List Θ × VIPosterior Θ X) :=
  match p.state with
  | VIState.fitted => Except.ok ((List.range n).map (p.draw x), p)
  | _ => Except.error VIError.unfittedPosteriorError

/-! ### The notebook's round loop

Embedded from `tutorials/17_vi_posteriors.ipynb`:

    posteriors = []
    proposal = prior
    for _ in range(num_rounds):
        theta, x = simulate_for_sbi(simulator, proposal, num_simulations=500)
        likelihood_estimator = inference.append_simulations(theta, x).train()
        potential_fn, theta_transform = likelihood_estimator_based_potential(
            likelihood_estimator, prior, x_o)
        posterior = VIPosterior(potential_fn, prior, "maf", theta_transform,
            vi_method="fKL").train()
        posteriors.append(posterior)
        proposal = posterior

`simulateRound` stands for the successful `simulate_for_sbi` call of one
round, applied to the loop's fixed simulator and count; `buildPosterior`
composes `likelihood_estimator_based_potential` with the `VIPosterior`
construction and its `train()`. -/

/-- The variables the round loop threads: the trainer (`inference`), the
current `proposal`, the `posteriors` list, and the `posterior` variable
(absent before the first round). -/
structure RoundState (Θ X E P : Type) where
  inference : Trainer Θ X
  proposal : P
  posteriors : List P
  posterior : Option P

/-- One iteration of the notebook's round loop. -/
def runRound {Θ X E P : Type} (simulateRound : P → List (Θ × X))
    (fit : List (Θ × X) → Nat → E) (buildPosterior : E → P) (seed : Nat)
    (st : RoundState Θ X E P) : RoundState Θ X E P :=
  let batch := simulateRound st.proposal
  let trained := Trainer.train fit (Trainer.append_simulations st.inference batch) seed
  let posterior := buildPosterior trained.1
  ⟨trained.2, posterior, st.posteriors ++ [posterior], some posterior⟩

/-- The notebook's round loop after `k` rounds, starting from an empty
trainer, `proposal = prior`, and an empty `posteriors` list. -/
def runLoop {Θ X E P : Type} (prior : P) (simulateRound : P → List (Θ × X))
    (fit : List (Θ × X) → Nat → E) (buildPosterior : E → P) (seed : Nat) :
    Nat → RoundState Θ X E P
  | 0 => ⟨⟨[]⟩, prior, [], none⟩
  | k + 1 =>
    runRound simulateRound fit buildPosterior seed
      (runLoop prior simulateRound fit buildPosterior seed k)

/-! ### Concrete instantiations used by the witnesses -/

/-- A concrete round simulation producing the notebook's 500 pairs. -/
def wBatch : Int → List (Int × Int) := fun _ => List.replicate 500 ((0 : Int), (0 : Int))

/-- A concrete fitting function for the loop instantiation. -/
def wFit : List (Int × Int) → Nat → Int := fun _ _ => 0

/-- A concrete posterior builder for the loop instantiation. -/
def wBuild : Int → Int := fun _ => 0

/-- A concrete always-succeeding simulator. -/
def wSim : Int → Option Int := fun θ => some (θ + 1)

/-- The pure value function of `wSim`. -/
def wG : Int → Int := fun θ => θ + 1

/-- A concrete proposal draw stream. -/
def wDraw : Nat → Int := fun i => (i : Int)

/-- A concrete simulator that raises on parameter 1. -/
def wSimFail : Int → Option Int := fun θ => if θ = 1 then none else some θ

/-- A concrete variational draw stream over scalar parameters. -/
def wDrawXO : Int → Nat → Int := fun _ _ => 0

/-- A concrete variational draw stream over 3-dimensional parameters. -/
def wDrawList : Int → Nat → List Int := fun _ _ => [0, 0, 0]

/-- A concrete fitted posterior over 3-dimensional parameters. -/
def wFitted : VIPosterior (List Int) Int :=
  VIPosterior.train (mkVIPosterior wDrawList) wDrawList

/-- A concrete per-epoch validation-loss curve: best at epoch 0, worse
afterwards. -/
def wLoss : Nat → Int := fun e => if e = 0 then 0 else 1

/-- A concrete per-epoch estimator snapshot stream. -/
def wEst : Nat → Nat := fun e => e

/-! ### Helper lemmas -/

theorem simBatch_total {Θ X : Type} (simulator : Θ → Option X) (g : Θ → X) :
    ∀ l : List Θ, (∀ θ ∈ l, simulator θ = some (g θ)) →
      simBatch simulator l = some (l.map (fun θ => (θ, g θ))) := by
  intro l
  induction l with
  | nil => intro _; rfl
  | cons a rest ih =>
    intro hl
    have ha : simulator a = some (g a) := hl a (List.mem_cons_self a rest)
    have hrest := ih (fun b hb => hl b (List.mem_cons_of_mem a hb))
    simp [simBatch, ha, hrest]

theorem simBatch_fail {Θ X : Type} (simulator : Θ → Option X) :
    ∀ l : List Θ, (∃ θ ∈ l, simulator θ = none) → simBatch simulator l = none := by
  intro l
  induction l with
  | nil =>
    rintro ⟨θ, hθ, -⟩
    cases hθ
  | cons a rest ih =>
    rintro ⟨θ, hθ, hfail⟩
    rcases List.mem_cons.mp hθ with rfl | hmem
    · simp [simBatch, hfail]
    · have hrest := ih ⟨θ, hmem, hfail⟩
      cases hsa : simulator a <;> simp [simBatch, hsa, hrest]

theorem bestEpoch_le (loss : Nat → Int) : ∀ e, bestEpoch loss e ≤ e := by
  intro e
  induction e with
  | zero => exact Nat.le_refl 0
  | succ e ih =>
    by_cases hlt : loss (e + 1) < loss (bestEpoch loss e)
    · simp [bestEpoch, hlt]
    · simp only [bestEpoch, if_neg hlt]
      exact Nat.le_succ_of_le ih

theorem bestEpoch_min (loss : Nat → Int) :
    ∀ N e, e ≤ N → loss (bestEpoch loss N) ≤ loss e := by
  intro N
  induction N with
  | zero =>
    intro e he
    have he0 : e = 0 := Nat.le_zero.mp he
    subst he0
    exact le_refl _
  | succ N ih =>
    intro e he
    have hcases : e ≤ N ∨ e = N + 1 := by omega
    by_cases hlt : loss (N + 1) < loss (bestEpoch loss N)
    · simp only [bestEpoch, if_pos hlt]
      rcases hcases with hc | hc
      · exact le_of_lt (lt_of_lt_of_le hlt (ih e hc))
      · subst hc; exact le_refl _
    · simp only [bestEpoch, if_neg hlt]
      rcases hcases with hc | hc
      · exact ih e hc
      · subst hc
        exact le_of_not_lt hlt

theorem runRound_posteriors {Θ X E P : Type} (simulateRound : P → List (Θ × X))
    (fit : List (Θ × X) → Nat → E) (buildPosterior : E → P) (seed : Nat)
    (st : RoundState Θ X E P) :
    ∃ p : P,
      (runRound simulateRound fit buildPosterior seed st).posteriors = st.posteriors ++ [p] ∧
      (runRound simulateRound fit buildPosterior seed st).posterior = some p ∧
      (runRound simulateRound fit buildPosterior seed st).proposal = p :=
  ⟨buildPosterior (fit (st.inference.data ++ simulateRound st.proposal) seed), rfl, rfl, rfl⟩

theorem runLoop_posteriors_length {Θ X E P : Type} (prior : P)
    (simulateRound : P → List (Θ × X)) (fit : List (Θ × X) → Nat → E)
    (buildPosterior : E → P) (seed : Nat) :
    ∀ k, (runLoop prior simulateRound fit buildPosterior seed k).posteriors.length = k := by
  intro k
  induction k with
  | zero => rfl
  | succ k ih =>
    obtain ⟨p, hps, -, -⟩ :=
      runRound_posteriors simulateRound fit buildPosterior seed
        (runLoop prior simulateRound fit buildPosterior seed k)
    show (runRound simulateRound fit buildPosterior seed
        (runLoop prior simulateRound fit buildPosterior seed k)).posteriors.length = k + 1
    rw [hps, List.length_append, ih]
    rfl

/-! ### Claims -/

/-- Claim C3: for every positive `n`, sampleable proposal and simulator, the
Simulation Executor's run returns a batch of exactly `n` ordered pairs
`(theta_i, x_i)` where `theta_i` is the i-th draw from the proposal and
`x_i` equals the simulator's output on `theta_i`. -/
theorem executor_batch {Θ X : Type} (simulator : Θ → Option X) (g : Θ → X)
    (draw : Nat → Θ) (n : Nat)
    (hs : ∀ i < n, simulator (draw i) = some (g (draw i))) :
    runExecutor simulator draw n
      = some ((List.range n).map (fun i => (draw i, g (draw i)))) ∧
    ((List.range n).map (fun i => (draw i, g (draw i)))).length = n := by
  have hmem : ∀ θ ∈ (List.range n).map draw, simulator θ = some (g θ) := by
    intro θ hθ
    rcases List.mem_map.mp hθ with ⟨i, hi, rfl⟩
    exact hs i (List.mem_range.mp hi)
  have h := simBatch_total simulator g ((List.range n).map draw) hmem
  constructor
  · unfold runExecutor
    rw [h, List.map_map]
    rfl
  · simp

theorem executor_batch_witness :
    (∀ i < 3, wSim (wDraw i) = some (wG (wDraw i))) ∧
    (runExecutor wSim wDraw 3 = some ((List.range 3).map (fun i => (wDraw i, wG (wDraw i)))) ∧
     ((List.range 3).map (fun i => (wDraw i, wG (wDraw i)))).length = 3) :=
  ⟨by decide, executor_batch wSim wG wDraw 3 (by decide)⟩

/-- Claim C8: if the simulator raises for any theta in a round's draw, the
Simulation Executor's run fails as a whole — the result is the failure
value, with no partial batch produced. -/
theorem executor_failure_atomic {Θ X : Type} (simulator : Θ → Option X) (draw : Nat → Θ)
    (n i : Nat) (hi : i < n) (hfail : simulator (draw i) = none) :
    runExecutor simulator draw n = none := by
  unfold runExecutor
  exact simBatch_fail simulator _
    ⟨draw i, List.mem_map.mpr ⟨i, List.mem_range.mpr hi, rfl⟩, hfail⟩

theorem executor_failure_atomic_witness :
    1 < 3 ∧ wSimFail (wDraw 1) = none ∧ runExecutor wSimFail wDraw 3 = none :=
  ⟨by decide, by decide, executor_failure_atomic wSimFail wDraw 3 1 (by decide) (by decide)⟩

/-- Claim C7: train is idempotent absent new data — for a fixed cumulative
batch and fixed seed, two consecutive `train()` calls with no intervening
append produce estimators whose validation losses are equal. -/
theorem train_idempotent {Θ X E : Type} (fit : List (Θ × X) → Nat → E) (vloss : E → Int)
    (t : Trainer Θ X) (seed : Nat) :
    vloss (Trainer.train fit (Trainer.train fit t seed).2 seed).1
      = vloss (Trainer.train fit t seed).1 :=
  rfl

/-- Claim C6: when `train()` stops because the validation loss failed to
improve for the patience window, the stopping epoch lies at least `patience`
epochs past the best epoch, and the returned estimator is the snapshot from
the epoch whose validation loss is minimal among all epochs run — not
necessarily the final epoch. -/
theorem train_convergence {E : Type} (est : Nat → E) (loss : Nat → Int)
    (patience maxEpochs : Nat)
    (h : noImprovement loss patience (stopEpoch loss patience maxEpochs) = true) :
    trainResult est loss patience maxEpochs
      = est (bestEpoch loss (stopEpoch loss patience maxEpochs)) ∧
    bestEpoch loss (stopEpoch loss patience maxEpochs) + patience
      ≤ stopEpoch loss patience maxEpochs ∧
    ∀ e ≤ stopEpoch loss patience maxEpochs,
      loss (bestEpoch loss (stopEpoch loss patience maxEpochs)) ≤ loss e := by
  refine ⟨rfl, ?_, ?_⟩
  · have hb := bestEpoch_le loss (stopEpoch loss patience maxEpochs)
    have hp : patience ≤ stopEpoch loss patience maxEpochs
        - bestEpoch loss (stopEpoch loss patience maxEpochs) := of_decide_eq_true h
    omega
  · intro e he
    exact bestEpoch_min loss _ e he

theorem train_convergence_witness :
    noImprovement wLoss 2 (stopEpoch wLoss 2 10) = true ∧
    (trainResult wEst wLoss 2 10 = wEst (bestEpoch wLoss (stopEpoch wLoss 2 10)) ∧
     bestEpoch wLoss (stopEpoch wLoss 2 10) + 2 ≤ stopEpoch wLoss 2 10 ∧
     ∀ e ≤ stopEpoch wLoss 2 10, wLoss (bestEpoch wLoss (stopEpoch wLoss 2 10)) ≤ wLoss e) :=
  ⟨by decide, train_convergence wEst wLoss 2 10 (by decide)⟩

/-- Claim C1: after `k` rounds each appending a batch of `n` samples, the
cumulative SimulationBatch held by the trainer has size exactly `k * n` —
append only concatenates, never discards or deduplicates.  In the
notebook's instantiation `n = 500`, so after round `r` the accumulated set
has `r * 500` pairs. -/
theorem cumulative_batch_size {Θ X E P : Type} (prior : P)
    (simulateRound : P → List (Θ × X)) (fit : List (Θ × X) → Nat → E)
    (buildPosterior : E → P) (seed : Nat) (n : Nat)
    (hn : ∀ p : P, (simulateRound p).length = n) (k : Nat) :
    (runLoop prior simulateRound fit buildPosterior seed k).inference.data.length
      = k * n := by
  induction k with
  | zero => simp [runLoop]
  | succ k ih =>
    have hstep :
        (runLoop prior simulateRound fit buildPosterior seed (k + 1)).inference.data
          = (runLoop prior simulateRound fit buildPosterior seed k).inference.data
            ++ simulateRound
              ((runLoop prior simulateRound fit buildPosterior seed k).proposal) := rfl
    rw [hstep, List.length_append, ih, hn, Nat.succ_mul]

theorem cumulative_batch_size_witness :
    (∀ p : Int, (wBatch p).length = 500) ∧
    (runLoop (0 : Int) wBatch wFit wBuild 0 2).inference.data.length = 2 * 500 :=
  ⟨fun _ => by simp [wBatch],
   cumulative_batch_size (0 : Int) wBatch wFit wBuild 0 500 (fun _ => by simp [wBatch]) 2⟩

/-- Claim C2: the proposal's lifecycle across the round loop — before round
1 the proposal equals the user-supplied prior, and at the end of every round
the proposal is exactly the VariationalPosterior fitted in that round (the
`proposal = posterior` assignment), so round `r + 1` uses round `r`'s
fitted posterior and no other operation rebinds the proposal. -/
theorem proposal_lifecycle {Θ X E P : Type} (prior : P)
    (simulateRound : P → List (Θ × X)) (fit : List (Θ × X) → Nat → E)
    (buildPosterior : E → P) (seed : Nat) :
    (runLoop prior simulateRound fit buildPosterior seed 0).proposal = prior ∧
    ∀ r : Nat,
      (runLoop prior simulateRound fit buildPosterior seed (r + 1)).posterior
        = some ((runLoop prior simulateRound fit buildPosterior seed (r + 1)).proposal) :=
  ⟨rfl, fun _ => rfl⟩

/-- Claim C10: the round loop retains every round's fitted posterior —
after `k ≥ 1` rounds the `posteriors` list has exactly `k` entries in round
order, and the final `proposal`, the final `posterior` variable and the
last list entry all coincide, so the object subsequently sampled at `x_o`
is that last entry. -/
theorem posteriors_retained {Θ X E P : Type} (prior : P)
    (simulateRound : P → List (Θ × X)) (fit : List (Θ × X) → Nat → E)
    (buildPosterior : E → P) (seed : Nat) (k : Nat) (hk : 1 ≤ k) :
    (runLoop prior simulateRound fit buildPosterior seed k).posteriors.length = k ∧
    (runLoop prior simulateRound fit buildPosterior seed k).posterior
      = some ((runLoop prior simulateRound fit buildPosterior seed k).proposal) ∧
    (runLoop prior simulateRound fit buildPosterior seed k).posteriors.getLast?
      = some ((runLoop prior simulateRound fit buildPosterior seed k).proposal) := by
  obtain ⟨r, rfl⟩ : ∃ r, k = r + 1 := ⟨k - 1, by omega⟩
  refine ⟨runLoop_posteriors_length prior simulateRound fit buildPosterior seed (r + 1),
    rfl, ?_⟩
  obtain ⟨p, hps, -, hprop⟩ :=
    runRound_posteriors simulateRound fit buildPosterior seed
      (runLoop prior simulateRound fit buildPosterior seed r)
  show (runRound simulateRound fit buildPosterior seed
        (runLoop prior simulateRound fit buildPosterior seed r)).posteriors.getLast?
      = some ((runRound simulateRound fit buildPosterior seed
        (runLoop prior simulateRound fit buildPosterior seed r)).proposal)
  rw [hps, List.getLast?_concat, hprop]

theorem posteriors_retained_witness :
    1 ≤ 2 ∧
    ((runLoop (0 : Int) wBatch wFit wBuild 0 2).posteriors.length = 2 ∧
     (runLoop (0 : Int) wBatch wFit wBuild 0 2).posterior
       = some ((runLoop (0 : Int) wBatch wFit wBuild 0 2).proposal) ∧
     (runLoop (0 : Int) wBatch wFit wBuild 0 2).posteriors.getLast?
       = some ((runLoop (0 : Int) wBatch wFit wBuild 0 2).proposal)) :=
  ⟨by decide, posteriors_retained (0 : Int) wBatch wFit wBuild 0 2 (by decide)⟩

/-- Claim C4: calling `.sample` on a VariationalPosterior in the Unfit
state raises `UnfittedPosteriorError`; more generally sampling raises in
every state other than Fitted, so it is valid only in the Fitted state of
the Unfit → Fitting → Fitted state machine. -/
theorem sample_unfit_raises {Θ X : Type} (p : VIPosterior Θ X) (n : Nat) (x : X)
    (h : p.state = VIState.unfit) :
    VIPosterior.sample p n x = Except.error VIError.unfittedPosteriorError ∧
    ∀ q : VIPosterior Θ X, q.state ≠ VIState.fitted →
      VIPosterior.sample q n x = Except.error VIError.unfittedPosteriorError := by
  constructor
  · simp [VIPosterior.sample, h]
  · intro q hq
    cases hstate : q.state
    · simp [VIPosterior.sample, hstate]
    · simp [VIPosterior.sample, hstate]
    · exact absurd hstate hq

theorem sample_unfit_raises_witness :
    (mkVIPosterior wDrawXO).state = VIState.unfit ∧
    (VIPosterior.sample (mkVIPosterior wDrawXO) 5 0
        = Except.error VIError.unfittedPosteriorError ∧
     ∀ q : VIPosterior Int Int, q.state ≠ VIState.fitted →
       VIPosterior.sample q 5 0 = Except.error VIError.unfittedPosteriorError) :=
  ⟨rfl, sample_unfit_raises (mkVIPosterior wDrawXO) 5 0 rfl⟩

/-- Claim C5: after fitting, `.sample n x` succeeds on a Fitted posterior,
returns a sample set of exactly `n` rows each of the parameter
dimensionality, and hands back the posterior itself unchanged — sampling
mutates no state and is therefore restartable any number of times. -/
theorem sample_fitted_restartable {X : Type} (p : VIPosterior (List Int) X)
    (n d : Nat) (x : X) (hf : p.state = VIState.fitted)
    (hd : ∀ i, (p.draw x i).length = d) :
    ∃ s, VIPosterior.sample p n x = Except.ok (s, p) ∧ s.length = n ∧
      ∀ θ ∈ s, θ.length = d := by
  refine ⟨(List.range n).map (p.draw x), ?_, ?_, ?_⟩
  · simp [VIPosterior.sample, hf]
  · simp
  · intro θ hθ
    rcases List.mem_map.mp hθ with ⟨i, -, rfl⟩
    exact hd i

theorem sample_fitted_restartable_witness :
    wFitted.state = VIState.fitted ∧ (∀ i, (wFitted.draw 0 i).length = 3) ∧
    ∃ s, VIPosterior.sample wFitted 4 0 = Except.ok (s, wFitted) ∧ s.length = 4 ∧
      ∀ θ ∈ s, θ.length = 3 :=
  ⟨rfl, fun _ => rfl, sample_fitted_restartable wFitted 4 3 0 rfl (fun _ => rfl)⟩

end SnviSpec
